import Mathlib

/- Shallow embedding of the document ingestion subsystem of the AI4RFP
   repository (src/module_logic.py, class InputProcessor).

   External effects (the pdftotext tool, the pdftoppm rasterizer, the
   pytesseract OCR engine, and the filesystem) are modelled by an explicit
   environment record; each fallible primitive is an Except value, where
   Except.error stands for the Python exception the primitive may raise.
   Strings are Lean Strings; character-level work is done on String.data. -/

namespace AI4RFP

/-- Characters accepted as whitespace by Python str.strip (str.isspace). -/
def pySpaceChars : List Char :=
  [' ', '\t', '\n', '\r', '\x0b', '\x0c',
   '\x1c', '\x1d', '\x1e', '\x1f', '\u0085', '\u00a0', '\u1680',
   '\u2000', '\u2001', '\u2002', '\u2003', '\u2004', '\u2005', '\u2006',
   '\u2007', '\u2008', '\u2009', '\u200a', '\u2028', '\u2029', '\u202f',
   '\u205f', '\u3000']

/-- Python str.isspace on a single character. -/
def pyIsSpace (c : Char) : Bool := pySpaceChars.any (fun d => d == c)

/-- Remove the longest run of characters satisfying p from the end of l. -/
def dropTrail (p : Char → Bool) (l : List Char) : List Char :=
  (l.reverse.dropWhile p).reverse

/-- Python str.strip: drop leading and trailing whitespace. -/
def pyStrip (l : List Char) : List Char :=
  dropTrail pyIsSpace (l.dropWhile pyIsSpace)

/-- Length that a maximal run of n consecutive line breaks has after
    module_logic.py line 32 rewrites it: runs of three or more collapse
    to exactly two, shorter runs are kept. -/
def capNl (n : Nat) : Nat := if 3 ≤ n then 2 else n

/-- One left-to-right pass of re.sub over the text, carrying the number n of
    pending line breaks seen immediately before the current position. -/
def collapseAux : Nat → List Char → List Char
  | n, [] => List.replicate (capNl n) '\n'
  | n, c :: cs =>
    if c = '\n' then collapseAux (n + 1) cs
    else List.replicate (capNl n) '\n' ++ c :: collapseAux 0 cs

/-- The re.sub call of module_logic.py line 32: every maximal run of three or
    more consecutive line breaks becomes exactly two. -/
def collapseNl (l : List Char) : List Char := collapseAux 0 l

/-- Character-list body of InputProcessor._clean_text (lines 28-34):
    empty text is returned as is, otherwise the line-break runs are collapsed
    and the result is stripped. -/
def cleanTextL (l : List Char) : List Char :=
  if l = [] then [] else pyStrip (collapseNl l)

/-- InputProcessor._clean_text (module_logic.py lines 28-34). -/
def clean_text (s : String) : String := String.mk (cleanTextL s.data)

/-- Presence of three consecutive line breaks somewhere in a text. -/
def hasTriple : List Char → Bool
  | [] => false
  | [_] => false
  | [_, _] => false
  | a :: b :: c :: rest =>
    (a == '\n' && (b == '\n' && c == '\n')) || hasTriple (b :: c :: rest)

/-- Lexicographic comparison of character lists by code point, the order
    Python uses when sorted() compares strings. -/
def strLeB : List Char → List Char → Bool
  | [], _ => true
  | _ :: _, [] => false
  | a :: as, b :: bs =>
    if a.toNat < b.toNat then true
    else if b.toNat < a.toNat then false
    else strLeB as bs

/-- Python string comparison a <= b. -/
def strLe (a b : String) : Bool := strLeB a.data b.data

/-- Python sorted() on a list of strings (module_logic.py line 99); the
    sorted full paths share the directory prefix, so sorting the file names
    gives the same order. -/
def sortStrings (l : List String) : List String :=
  List.insertionSort (fun a b => strLe a b = true) l

/-- Python str.startswith on character lists. -/
def strStartsWith (s p : List Char) : Bool := s.take p.length == p

/-- Python str.endswith on character lists. -/
def strEndsWith (s p : List Char) : Bool := s.drop (s.length - p.length) == p

/-- The file filter of module_logic.py line 99:
    f.startswith("page") and f.endswith(".png"). -/
def matchesPageImage (f : String) : Bool :=
  strStartsWith f.data (['p', 'a', 'g', 'e']) &&
    strEndsWith f.data (['.', 'p', 'n', 'g'])

/-- Python sep.join(list). -/
def joinWith (sep : String) : List String → String
  | [] => ""
  | [x] => x
  | x :: y :: xs => x ++ sep ++ joinWith sep (y :: xs)

/-- The page separator of module_logic.py line 116. -/
def pageBreakMarker : String := "\n\n--- Page Break ---\n\n"

/-- The return idiom of module_logic.py lines 104, 120, 123, 126 and 128:
    extracted_text if extracted_text else None. -/
def noneIfEmpty (t : String) : Option String := if t = "" then none else some t

instance {ε α : Type} [DecidableEq ε] [DecidableEq α] :
    DecidableEq (Except ε α) := fun a b =>
  match a, b with
  | Except.ok x, Except.ok y =>
    if h : x = y then isTrue (by rw [h]) else isFalse (by simp [h])
  | Except.error x, Except.error y =>
    if h : x = y then isTrue (by rw [h]) else isFalse (by simp [h])
  | Except.ok _, Except.error _ => isFalse (by simp)
  | Except.error _, Except.ok _ => isFalse (by simp)

/-- Environment of one process_pdf call: outcomes of the external tools and
    the state of the shared scratch directory /tmp/pdf_pages_for_ocr.
    Except.error stands for a raised exception. -/
structure PdfEnv where
  pdftotext : Except Unit String
  makedirsOk : Bool
  scratchFiles : List String
  pdftoppm : Except Unit (List String)
  ocr : String → Except Unit String
  removeOk : String → Bool

/-- The candidate text after module_logic.py lines 74-84: the cleaned stdout
    of pdftotext, or the empty string when the tool raised (all three except
    clauses leave extracted_text at its initial value). -/
def directText (env : PdfEnv) : String :=
  match env.pdftotext with
  | Except.ok out => clean_text out
  | Except.error _ => ""

/-- InputProcessor._ocr_image_to_text (lines 58-65): cleaned OCR output on
    success, the empty string when pytesseract or Image.open raises. -/
def ocr_image_to_text (g : String → Except Unit String) (p : String) : String :=
  match g p with
  | Except.ok t => clean_text t
  | Except.error _ => ""

/-- Membership test used to model file overwriting in the scratch dir. -/
def listHas (l : List String) (x : String) : Bool := l.any (fun y => y == x)

/-- Scratch directory contents after pdftoppm (line 98) wrote its page
    images: the pre-existing files, with any name pdftoppm overwrote
    appearing once, plus the freshly produced files. -/
def dirAfterRaster (old produced : List String) : List String :=
  old.filter (fun f => !(listHas produced f)) ++ produced

/-- os.remove of one named file from a directory listing. -/
def removeFile : List String → String → List String
  | [], _ => []
  | x :: xs, f => if x = f then xs else x :: removeFile xs f

/-- Directory contents after removing each file of a list in turn. -/
def foldRemove (d : List String) (images : List String) : List String :=
  images.foldl removeFile d

/-- The image files the fallback iterates over (line 99): the page*.png
    entries of the scratch directory in sorted order. -/
def fallbackImages (scratch produced : List String) : List String :=
  sortStrings ((dirAfterRaster scratch produced).filter matchesPageImage)

/-- Outcome of the per-page loop of module_logic.py lines 106-110:
    collected texts, the OCR calls made, the directory contents, and whether
    the loop finished without an exception (completed = false means an
    os.remove call raised, which line 124 catches). -/
structure LoopOut where
  texts : List String
  calls : List String
  dir : List String
  completed : Bool
deriving DecidableEq, Repr

/-- The loop of module_logic.py lines 106-110. OCR failure inside
    _ocr_image_to_text only yields an empty page text; a failing os.remove
    raises, leaving the current file and all later files in place. -/
def ocrLoop (env : PdfEnv) : List String → List String → List String →
    List String → LoopOut
  | [], texts, calls, dir => ⟨texts, calls, dir, true⟩
  | img :: rest, texts, calls, dir =>
    if env.removeOk img then
      ocrLoop env rest (texts ++ [ocr_image_to_text env.ocr img])
        (calls ++ [img]) (removeFile dir img)
    else
      ⟨texts ++ [ocr_image_to_text env.ocr img], calls ++ [img], dir, false⟩

/-- Observable outcome of one process_pdf call. result is Except.error when
    an exception escaped process_pdf itself; otherwise it is the returned
    text or None. dir lists the scratch directory contents on exit. -/
structure PdfResult where
  result : Except Unit (Option String)
  dir : List String
  fallbackEntered : Bool
  pdftoppmInvoked : Bool
  ocrCalls : List String
  dirRemoved : Bool
deriving DecidableEq, Repr

/-- Lines 111-117 and the line 124 handler: on a completed loop the page
    texts are joined with the page-break marker and cleaned (after the
    best-effort rmdir of lines 113-114); on an exception the handler returns
    the direct text obtained earlier, or None. -/
def pdfLoopResult (env : PdfEnv) (lo : LoopOut) : PdfResult :=
  if lo.completed then
    ⟨Except.ok (noneIfEmpty (clean_text (joinWith pageBreakMarker lo.texts))),
      lo.dir, true, true, lo.calls, lo.dir.isEmpty⟩
  else
    ⟨Except.ok (noneIfEmpty (directText env)), lo.dir, true, true, lo.calls,
      false⟩

/-- Lines 98-117 inside the try: rasterize, list and sort the page images,
    return early (line 104) when there are none, else run the page loop. -/
def pdfOcrRun (env : PdfEnv) (produced : List String) : PdfResult :=
  if fallbackImages env.scratchFiles produced = [] then
    ⟨Except.ok (noneIfEmpty (directText env)),
      dirAfterRaster env.scratchFiles produced, true, true, [], false⟩
  else
    pdfLoopResult env
      (ocrLoop env (fallbackImages env.scratchFiles produced) [] []
        (dirAfterRaster env.scratchFiles produced))

/-- The fallback block of module_logic.py lines 91-126. os.makedirs on
    line 94 stands before the try of line 96, so its failure raises out of
    process_pdf; a pdftoppm failure is caught by lines 118-123 and returns
    the direct text or None. -/
def pdfFallback (env : PdfEnv) : PdfResult :=
  if env.makedirsOk = false then
    ⟨Except.error (), env.scratchFiles, true, false, [], false⟩
  else
    match env.pdftoppm with
    | Except.error _ =>
      ⟨Except.ok (noneIfEmpty (directText env)), env.scratchFiles, true, true,
        [], false⟩
    | Except.ok produced => pdfOcrRun env produced

/-- InputProcessor.process_pdf (module_logic.py lines 67-128): direct
    extraction, the insufficiency test of line 90, and the OCR fallback. -/
def process_pdf (env : PdfEnv) : PdfResult :=
  if directText env = "" ∨ (directText env).length < 100 then pdfFallback env
  else
    ⟨Except.ok (noneIfEmpty (directText env)), env.scratchFiles, false, false,
      [], false⟩

/-- The extraction strategy process_document dispatched to, or the reason it
    dispatched to none. -/
inductive Strategy where
  | txtS
  | docxS
  | pdfS
  | imageS
  | unsupported
  | missing
deriving DecidableEq, Repr

/-- Environment of one process_document call: whether the file exists, the
    outcomes of reading it as text or as a docx paragraph list, and the
    environment of the PDF path (whose ocr field also serves the direct
    image path, which calls the same _ocr_image_to_text). -/
structure DocEnv where
  fileExists : Bool
  txtRead : Except Unit String
  docxParas : Except Unit (List String)
  pdf : PdfEnv

/-- Observable outcome of one process_document call. -/
structure DocResult where
  result : Except Unit (Option String)
  strategy : Strategy
deriving DecidableEq, Repr

/-- InputProcessor.process_txt (lines 36-44): cleaned file content, or None
    when reading raised. -/
def process_txt (env : DocEnv) : Option String :=
  match env.txtRead with
  | Except.ok s => some (clean_text s)
  | Except.error _ => none

/-- InputProcessor.process_docx (lines 46-56): paragraph texts joined with
    one line break, cleaned; None when parsing raised. -/
def process_docx (env : DocEnv) : Option String :=
  match env.docxParas with
  | Except.ok ps => some (clean_text (joinWith ("\n") ps))
  | Except.error _ => none

/-- Index of the last occurrence of a character in a list, if any. -/
def lastIdx (c : Char) : List Char → Option Nat
  | [] => none
  | x :: xs =>
    match lastIdx c xs with
    | some i => some (i + 1)
    | none => if x = c then some 0 else none

/-- Python rfind result: the last index, or -1 when absent. -/
def idxToInt : Option Nat → Int
  | none => -1
  | some i => Int.ofNat i

/-- Extension part of os.path.splitext (posixpath): the suffix from the last
    dot, provided that dot lies after the last slash and some character
    between them is not itself a dot (leading dots of a basename never start
    an extension). -/
def splitextExtL (p : List Char) : List Char :=
  let sepIndex := idxToInt (lastIdx '/' p)
  let dotIndex := idxToInt (lastIdx '.' p)
  if sepIndex < dotIndex then
    if ((p.take dotIndex.toNat).drop (sepIndex + 1).toNat).any
        (fun ch => ch != '.') then
      p.drop dotIndex.toNat
    else []
  else []

/-- Extension of a path as a String. -/
def splitextExt (p : String) : String := String.mk (splitextExtL p.data)

/-- Python str.lower, for the ASCII paths the router receives. -/
def lowerStr (s : String) : String := String.mk (s.data.map Char.toLower)

/-- The raster image extensions of module_logic.py line 145. -/
def imageExts : List String := [".png", ".jpg", ".jpeg", ".tiff", ".bmp", ".gif"]

/-- Every extension for which process_document dispatches to a strategy. -/
def supportedExts : List String := [".txt", ".docx", ".pdf"] ++ imageExts

/-- InputProcessor.process_document (module_logic.py lines 130-150):
    existence check, extension dispatch on the lowercased path, unsupported
    extensions yield None. The pdf branch exposes the process_pdf outcome,
    exception included. -/
def process_document (env : DocEnv) (path : String) : DocResult :=
  if env.fileExists = false then
    ⟨Except.ok none, Strategy.missing⟩
  else
    if splitextExt (lowerStr path) = ".txt" then
      ⟨Except.ok (process_txt env), Strategy.txtS⟩
    else if splitextExt (lowerStr path) = ".docx" then
      ⟨Except.ok (process_docx env), Strategy.docxS⟩
    else if splitextExt (lowerStr path) = ".pdf" then
      ⟨(process_pdf env.pdf).result, Strategy.pdfS⟩
    else if listHas imageExts (splitextExt (lowerStr path)) then
      ⟨Except.ok (some (ocr_image_to_text env.pdf.ocr path)), Strategy.imageS⟩
    else
      ⟨Except.ok none, Strategy.unsupported⟩

/-- A pdftotext stdout of 120 characters, above the sufficiency threshold. -/
def longText : String := String.mk (List.replicate 120 'a')

/-- PDF environment whose direct extraction is sufficient. -/
def envLong : PdfEnv :=
  ⟨Except.ok longText, true, [], Except.ok [], fun _ => Except.error (),
    fun _ => true⟩

/-- PDF environment whose direct extraction yields only two characters and
    whose rasterizer then raises. -/
def envShort : PdfEnv :=
  ⟨Except.ok ("hi"), true, [], Except.error (), fun _ => Except.error (),
    fun _ => true⟩

/-- OCR oracle of the two-page scenario: Page A then Page B. -/
def ocrTwoPages : String → Except Unit String := fun p =>
  if p = "page-1.png" then Except.ok ("Page A")
  else if p = "page-2.png" then Except.ok ("Page B")
  else Except.error ()

/-- PDF environment of the two-page image-only scenario. -/
def envTwoPages : PdfEnv :=
  ⟨Except.ok (""), true, [], Except.ok (["page-1.png", "page-2.png"]),
    ocrTwoPages, fun _ => true⟩

/-- PDF environment in which os.remove raises on the second of three page
    images, aborting the loop between pages. -/
def envRemoveFails : PdfEnv :=
  ⟨Except.ok (""), true, [],
    Except.ok (["page-1.png", "page-2.png", "page-3.png"]),
    fun _ => Except.ok ("T"), fun f => f != "page-2.png"⟩

/-- PDF environment whose scratch directory holds one non-page file. -/
def envOtherFile : PdfEnv :=
  ⟨Except.ok (""), true, ["other.txt"], Except.ok (["page-1.png"]),
    fun _ => Except.ok ("T"), fun _ => true⟩

/-- OCR oracle distinguishing a stale page image from a fresh one. -/
def ocrStale : String → Except Unit String := fun p =>
  if p = "pagestale.png" then Except.ok ("OLD") else Except.ok ("NEW")

/-- PDF environment whose scratch directory holds a stale page image left by
    an earlier run. -/
def envStale : PdfEnv :=
  ⟨Except.ok (""), true, ["pagestale.png"], Except.ok (["page-1.png"]),
    ocrStale, fun _ => true⟩

/-- PDF environment in which the scratch directory cannot be created. -/
def envNoMkdir : PdfEnv :=
  ⟨Except.ok (""), false, [], Except.ok [], fun _ => Except.error (),
    fun _ => true⟩

/-- Document environment around envNoMkdir for an existing .pdf path. -/
def docEnvNoMkdir : DocEnv :=
  ⟨true, Except.error (), Except.error (), envNoMkdir⟩

/-- Document environment of an existing file with readable docx content. -/
def docEnvPlain : DocEnv :=
  ⟨true, Except.error (), Except.ok (["Para1", "Para2"]), envLong⟩

/-- Document environment of a missing file. -/
def docEnvMissing : DocEnv :=
  ⟨false, Except.error (), Except.error (), envLong⟩

/-- OCR oracle succeeding on one image and raising on any other. -/
def ocrOneGood : String → Except Unit String := fun p =>
  if p = "good.png" then Except.ok ("txt") else Except.error ()

/-- PDF environment carrying ocrOneGood; removals always succeed. -/
def envOneGood : PdfEnv :=
  ⟨Except.ok (""), true, [], Except.ok [], ocrOneGood, fun _ => true⟩

lemma hasTriple_cons (a : Char) (l : List Char) :
    hasTriple (a :: l) =
      (((a == '\n') && (l.take 2 == ['\n', '\n'])) || hasTriple l) := by
  match l with
  | [] => simp [hasTriple]
  | [b] =>
    simp only [hasTriple, List.take, Bool.false_or]
    cases hb : (b == '\n') <;> simp [hb]
  | b :: c :: t =>
    simp only [hasTriple, List.take]
    cases hb : (b == '\n') <;> cases hc : (c == '\n') <;>
      cases ha : (a == '\n') <;> simp [ha, hb, hc]

lemma hasTriple_tail (a : Char) (l : List Char)
    (h : hasTriple (a :: l) = false) : hasTriple l = false := by
  rw [hasTriple_cons] at h
  exact (Bool.or_eq_false_iff.mp h).2

lemma take_two_append (t ys : List Char) (h : t.take 2 = ['\n', '\n']) :
    (t ++ ys).take 2 = ['\n', '\n'] := by
  match t with
  | [] => simp at h
  | [b] => simp [List.take] at h
  | b :: c :: r => simp [List.take] at h ⊢; exact h

lemma hasTriple_append_left (xs ys : List Char)
    (h : hasTriple xs = true) : hasTriple (xs ++ ys) = true := by
  induction xs with
  | nil => simp [hasTriple] at h
  | cons a t ih =>
    rw [hasTriple_cons] at h
    rw [List.cons_append, hasTriple_cons]
    rcases Bool.or_eq_true_iff.mp h with h1 | h2
    · have ha := (Bool.and_eq_true_iff.mp h1).1
      have ht := (Bool.and_eq_true_iff.mp h1).2
      have : (t ++ ys).take 2 = ['\n', '\n'] :=
        take_two_append t ys (by simpa using ht)
      simp [ha, this]
    · simp [ih h2]

lemma hasTriple_append_right (xs ys : List Char)
    (h : hasTriple (xs ++ ys) = false) : hasTriple ys = false := by
  induction xs with
  | nil => simpa using h
  | cons a t ih =>
    rw [List.cons_append] at h
    exact ih (hasTriple_tail a (t ++ ys) h)

lemma hasTriple_of_append (xs ys : List Char)
    (h : hasTriple (xs ++ ys) = false) : hasTriple xs = false := by
  cases hx : hasTriple xs with
  | false => rfl
  | true => rw [hasTriple_append_left xs ys hx] at h; cases h

lemma hasTriple_mid (u z v : List Char)
    (h : hasTriple (u ++ (z ++ v)) = false) : hasTriple z = false :=
  hasTriple_of_append z v (hasTriple_append_right u (z ++ v) h)

lemma length_dropWhile_le_self (p : Char → Bool) (l : List Char) :
    (l.dropWhile p).length ≤ l.length := by
  induction l with
  | nil => simp
  | cons a t ih =>
    rw [List.dropWhile_cons]
    cases hp : p a <;> simp [hp]
    omega

lemma dropWhile_dropWhile (p : Char → Bool) (l : List Char) :
    (l.dropWhile p).dropWhile p = l.dropWhile p := by
  induction l with
  | nil => simp
  | cons a t ih =>
    rw [List.dropWhile_cons]
    cases hp : p a <;> simp [List.dropWhile_cons, hp, ih]

lemma dropWhile_ne_cons_self (p : Char → Bool) (a : Char) (t : List Char) :
    t.dropWhile p ≠ a :: t := by
  intro h
  have hle := length_dropWhile_le_self p t
  rw [h] at hle
  simp only [List.length_cons] at hle
  omega

lemma dropWhile_eq_self_of_append (p : Char → Bool) (l u v : List Char)
    (hl : l.dropWhile p = l) (hu : l = u ++ v) : u.dropWhile p = u := by
  match u with
  | [] => simp
  | a :: u' =>
    have hcons : l = a :: (u' ++ v) := by rw [hu]; rfl
    have hpa : p a = false := by
      cases hp : p a with
      | false => rfl
      | true =>
        rw [hcons] at hl
        rw [List.dropWhile_cons] at hl
        simp only [hp, if_true] at hl
        exact absurd hl (dropWhile_ne_cons_self p a (u' ++ v))
    rw [List.dropWhile_cons, hpa]
    simp

lemma exists_dropWhile_suffix_decomp (p : Char → Bool) (l : List Char) :
    ∃ u, l = u ++ l.dropWhile p := by
  induction l with
  | nil => exact ⟨[], rfl⟩
  | cons a t ih =>
    rw [List.dropWhile_cons]
    cases hp : p a with
    | true =>
      rcases ih with ⟨u, hu⟩
      refine ⟨a :: u, ?_⟩
      rw [if_pos rfl, List.cons_append, ← hu]
    | false => exact ⟨[], by simp⟩

lemma exists_dropTrail_decomp (p : Char → Bool) (l : List Char) :
    ∃ v, l = dropTrail p l ++ v := by
  rcases exists_dropWhile_suffix_decomp p l.reverse with ⟨u, hu⟩
  refine ⟨u.reverse, ?_⟩
  unfold dropTrail
  calc l = l.reverse.reverse := by rw [List.reverse_reverse]
  _ = (u ++ l.reverse.dropWhile p).reverse := by rw [← hu]
  _ = (l.reverse.dropWhile p).reverse ++ u.reverse := by
    rw [List.reverse_append]

lemma dropTrail_dropTrail (p : Char → Bool) (l : List Char) :
    dropTrail p (dropTrail p l) = dropTrail p l := by
  unfold dropTrail
  rw [List.reverse_reverse, dropWhile_dropWhile]

lemma pyStrip_decomp (l : List Char) :
    ∃ u v, l = u ++ (pyStrip l ++ v) := by
  rcases exists_dropWhile_suffix_decomp pyIsSpace l with ⟨u, hu⟩
  rcases exists_dropTrail_decomp pyIsSpace (l.dropWhile pyIsSpace) with ⟨v, hv⟩
  refine ⟨u, v, ?_⟩
  unfold pyStrip
  rw [← hv, ← hu]

lemma pyStrip_pyStrip (l : List Char) : pyStrip (pyStrip l) = pyStrip l := by
  unfold pyStrip
  set L := l.dropWhile pyIsSpace with hL
  have hLfix : L.dropWhile pyIsSpace = L := by rw [hL]; exact dropWhile_dropWhile _ l
  rcases exists_dropTrail_decomp pyIsSpace L with ⟨v, hv⟩
  have hfix : (dropTrail pyIsSpace L).dropWhile pyIsSpace = dropTrail pyIsSpace L :=
    dropWhile_eq_self_of_append pyIsSpace L (dropTrail pyIsSpace L) v hLfix hv
  rw [hfix, dropTrail_dropTrail]

lemma capNl_eq_self (n : Nat) (h : n ≤ 2) : capNl n = n := by
  unfold capNl
  rw [if_neg (by omega)]

lemma capNl_le_two (n : Nat) : capNl n ≤ 2 := by
  unfold capNl
  split <;> omega

lemma capNl_capNl (n : Nat) : capNl (capNl n) = capNl n :=
  capNl_eq_self _ (capNl_le_two n)

lemma collapseAux_replicate_append (k : Nat) (l : List Char) :
    ∀ j, collapseAux j (List.replicate k '\n' ++ l) = collapseAux (j + k) l := by
  induction k with
  | zero => intro j; simp
  | succ k ih =>
    intro j
    rw [List.replicate_succ, List.cons_append]
    have heq : collapseAux j ('\n' :: (List.replicate k '\n' ++ l)) =
        collapseAux (j + 1) (List.replicate k '\n' ++ l) := by
      simp [collapseAux]
    rw [heq, ih (j + 1)]
    have : j + 1 + k = j + (k + 1) := by omega
    rw [this]

lemma collapseAux_idem (l : List Char) :
    ∀ n, collapseAux 0 (collapseAux n l) = collapseAux n l := by
  induction l with
  | nil =>
    intro n
    show collapseAux 0 (List.replicate (capNl n) '\n') = _
    rw [← List.append_nil (List.replicate (capNl n) '\n'),
      collapseAux_replicate_append (capNl n) [] 0]
    show List.replicate (capNl (0 + capNl n)) '\n' = _
    rw [Nat.zero_add, capNl_capNl]
    rfl
  | cons c cs ih =>
    intro n
    by_cases hc : c = '\n'
    · subst hc
      have heq : collapseAux n ('\n' :: cs) = collapseAux (n + 1) cs := by
        simp [collapseAux]
      rw [heq]
      exact ih (n + 1)
    · have heq : collapseAux n (c :: cs) =
          List.replicate (capNl n) '\n' ++ c :: collapseAux 0 cs := by
        simp [collapseAux, hc]
      rw [heq, collapseAux_replicate_append (capNl n) _ 0, Nat.zero_add]
      have heq2 : collapseAux (capNl n) (c :: collapseAux 0 cs) =
          List.replicate (capNl (capNl n)) '\n' ++
            c :: collapseAux 0 (collapseAux 0 cs) := by
        simp [collapseAux, hc]
      rw [heq2, capNl_capNl, ih 0]

lemma hasTriple_replicate_le_two (k : Nat) (h : k ≤ 2) :
    hasTriple (List.replicate k '\n') = false := by
  interval_cases k <;> rfl

lemma hasTriple_pad (k : Nat) (hk : k ≤ 2) (c : Char) (hc : c ≠ '\n')
    (t : List Char) (ht : hasTriple t = false) :
    hasTriple (List.replicate k '\n' ++ c :: t) = false := by
  have hcb : (c == '\n') = false := by simp [hc]
  interval_cases k
  · show hasTriple (c :: t) = false
    rw [hasTriple_cons]
    simp [hcb, ht]
  · show hasTriple ('\n' :: c :: t) = false
    rw [hasTriple_cons, hasTriple_cons]
    cases t <;> simp [hcb, ht]
  · show hasTriple ('\n' :: '\n' :: c :: t) = false
    rw [hasTriple_cons, hasTriple_cons, hasTriple_cons]
    cases t <;> simp [hcb, ht]

lemma hasTriple_collapseAux (l : List Char) :
    ∀ n, hasTriple (collapseAux n l) = false := by
  induction l with
  | nil =>
    intro n
    exact hasTriple_replicate_le_two _ (capNl_le_two n)
  | cons c cs ih =>
    intro n
    by_cases hc : c = '\n'
    · subst hc
      have heq : collapseAux n ('\n' :: cs) = collapseAux (n + 1) cs := by
        simp [collapseAux]
      rw [heq]
      exact ih (n + 1)
    · have heq : collapseAux n (c :: cs) =
          List.replicate (capNl n) '\n' ++ c :: collapseAux 0 cs := by
        simp [collapseAux, hc]
      rw [heq]
      exact hasTriple_pad _ (capNl_le_two n) c hc _ (ih 0)

lemma collapseAux_fix (l : List Char) :
    ∀ n, n ≤ 2 → hasTriple (List.replicate n '\n' ++ l) = false →
      collapseAux n l = List.replicate n '\n' ++ l := by
  induction l with
  | nil =>
    intro n hn _
    show List.replicate (capNl n) '\n' = _
    rw [capNl_eq_self n hn, List.append_nil]
  | cons c cs ih =>
    intro n hn h
    by_cases hc : c = '\n'
    · subst hc
      have hrep : List.replicate n '\n' ++ '\n' :: cs =
          List.replicate (n + 1) '\n' ++ cs := by
        rw [List.replicate_succ' n '\n', List.append_assoc]
        rfl
      rw [hrep] at h
      have hn1 : n + 1 ≤ 2 := by
        rcases Nat.lt_or_ge n 2 with h2 | h2
        · omega
        · exfalso
          have hn2 : n = 2 := by omega
          subst hn2
          have htr : hasTriple (List.replicate 3 '\n' ++ cs) = true := by
            show hasTriple ('\n' :: '\n' :: '\n' :: cs) = true
            simp [hasTriple]
          rw [htr] at h
          cases h
      have heq : collapseAux n ('\n' :: cs) = collapseAux (n + 1) cs := by
        simp [collapseAux]
      rw [heq, hrep]
      exact ih (n + 1) hn1 h
    · have heq : collapseAux n (c :: cs) =
          List.replicate (capNl n) '\n' ++ c :: collapseAux 0 cs := by
        simp [collapseAux, hc]
      have hcs : hasTriple cs = false :=
        hasTriple_tail c cs (hasTriple_append_right _ _ h)
      rw [heq, capNl_eq_self n hn, ih 0 (by omega) (by simpa using hcs)]
      simp

lemma collapseNl_fix (l : List Char) (h : hasTriple l = false) :
    collapseNl l = l := by
  have h0 := collapseAux_fix l 0 (by omega) (by simpa using h)
  simpa [collapseNl] using h0

lemma hasTriple_collapseNl (l : List Char) : hasTriple (collapseNl l) = false :=
  hasTriple_collapseAux l 0

lemma hasTriple_pyStrip (l : List Char) (h : hasTriple l = false) :
    hasTriple (pyStrip l) = false := by
  rcases pyStrip_decomp l with ⟨u, v, huv⟩
  rw [huv] at h
  exact hasTriple_of_append _ _ (hasTriple_append_right u _ h)

lemma cleanTextL_idem (l : List Char) :
    cleanTextL (cleanTextL l) = cleanTextL l := by
  by_cases hl : l = []
  · subst hl
    rfl
  · have e1 : cleanTextL l = pyStrip (collapseNl l) := by
      unfold cleanTextL
      rw [if_neg hl]
    rw [e1]
    by_cases hy : pyStrip (collapseNl l) = []
    · rw [hy]
      rfl
    · have h1 : hasTriple (pyStrip (collapseNl l)) = false :=
        hasTriple_pyStrip _ (hasTriple_collapseNl l)
      have e2 : cleanTextL (pyStrip (collapseNl l)) =
          pyStrip (collapseNl (pyStrip (collapseNl l))) := by
        unfold cleanTextL
        rw [if_neg hy]
      rw [e2, collapseNl_fix _ h1, pyStrip_pyStrip]

lemma listHas_iff (l : List String) (x : String) :
    listHas l x = true ↔ x ∈ l := by
  simp [listHas, List.any_eq_true]

lemma mem_of_mem_removeFile (d : List String) (f x : String)
    (h : x ∈ removeFile d f) : x ∈ d := by
  induction d with
  | nil => simp [removeFile] at h
  | cons a t ih =>
    rw [removeFile] at h
    by_cases haf : a = f
    · rw [if_pos haf] at h
      exact List.mem_cons_of_mem a h
    · rw [if_neg haf] at h
      rcases List.mem_cons.mp h with h1 | h2
      · subst h1
        exact List.mem_cons_self _ _
      · exact List.mem_cons_of_mem a (ih h2)

lemma nodup_removeFile (d : List String) (f : String) (h : d.Nodup) :
    (removeFile d f).Nodup := by
  induction d with
  | nil => simp [removeFile]
  | cons a t ih =>
    rw [removeFile]
    rcases List.nodup_cons.mp h with ⟨hat, ht⟩
    by_cases haf : a = f
    · rw [if_pos haf]
      exact ht
    · rw [if_neg haf]
      refine List.nodup_cons.mpr ⟨?_, ih ht⟩
      intro hmem
      exact hat (mem_of_mem_removeFile t f a hmem)

lemma mem_removeFile_iff (d : List String) (f x : String) (h : d.Nodup) :
    x ∈ removeFile d f ↔ x ∈ d ∧ x ≠ f := by
  induction d with
  | nil => simp [removeFile]
  | cons a t ih =>
    rcases List.nodup_cons.mp h with ⟨hat, ht⟩
    rw [removeFile]
    by_cases haf : a = f
    · subst haf
      rw [if_pos rfl]
      constructor
      · intro hx
        refine ⟨List.mem_cons_of_mem a hx, ?_⟩
        intro hxa
        subst hxa
        exact hat hx
      · rintro ⟨hx, hxa⟩
        rcases List.mem_cons.mp hx with h1 | h2
        · exact absurd h1 hxa
        · exact h2
    · rw [if_neg haf, List.mem_cons, ih ht, List.mem_cons]
      constructor
      · rintro (h1 | ⟨h2, h3⟩)
        · subst h1
          exact ⟨Or.inl rfl, fun hf => haf hf⟩
        · exact ⟨Or.inr h2, h3⟩
      · rintro ⟨h1 | h2, h3⟩
        · exact Or.inl h1
        · exact Or.inr ⟨h2, h3⟩

lemma nodup_foldRemove (images : List String) :
    ∀ d : List String, d.Nodup → (foldRemove d images).Nodup := by
  induction images with
  | nil =>
    intro d h
    simpa [foldRemove] using h
  | cons i rest ih =>
    intro d h
    rw [foldRemove, List.foldl_cons]
    exact ih (removeFile d i) (nodup_removeFile d i h)

lemma mem_foldRemove_iff (images : List String) :
    ∀ d : List String, d.Nodup → ∀ x : String,
      (x ∈ foldRemove d images ↔ x ∈ d ∧ x ∉ images) := by
  induction images with
  | nil =>
    intro d h x
    simp [foldRemove]
  | cons i rest ih =>
    intro d h x
    rw [foldRemove, List.foldl_cons]
    have hrec := ih (removeFile d i) (nodup_removeFile d i h) x
    rw [foldRemove] at hrec
    rw [hrec, mem_removeFile_iff d i x h]
    constructor
    · rintro ⟨⟨hx, hxi⟩, hxr⟩
      refine ⟨hx, ?_⟩
      rw [List.mem_cons]
      rintro (h1 | h2)
      · exact hxi h1
      · exact hxr h2
    · rintro ⟨hx, hni⟩
      rw [List.mem_cons] at hni
      exact ⟨⟨hx, fun h1 => hni (Or.inl h1)⟩, fun h2 => hni (Or.inr h2)⟩

lemma nodup_dirAfterRaster (old produced : List String)
    (h1 : old.Nodup) (h2 : produced.Nodup) :
    (dirAfterRaster old produced).Nodup := by
  unfold dirAfterRaster
  refine List.Nodup.append (List.Nodup.filter _ h1) h2 ?_
  intro x hx hmem
  rcases List.mem_filter.mp hx with ⟨_, hpx⟩
  rw [Bool.not_eq_true'] at hpx
  rw [← listHas_iff produced x] at hmem
  rw [hmem] at hpx
  cases hpx

lemma mem_dirAfterRaster (old produced : List String) (x : String)
    (h : x ∈ old ∨ x ∈ produced) : x ∈ dirAfterRaster old produced := by
  unfold dirAfterRaster
  rw [List.mem_append]
  by_cases hp : x ∈ produced
  · exact Or.inr hp
  · rcases h with ho | hp2
    · refine Or.inl (List.mem_filter.mpr ⟨ho, ?_⟩)
      rw [Bool.not_eq_true']
      rw [← Bool.not_eq_true (listHas produced x), listHas_iff]
      exact hp
    · exact absurd hp2 hp

lemma mem_fallbackImages_iff (scratch produced : List String) (x : String) :
    x ∈ fallbackImages scratch produced ↔
      x ∈ dirAfterRaster scratch produced ∧ matchesPageImage x = true := by
  unfold fallbackImages sortStrings
  rw [(List.perm_insertionSort _ _).mem_iff, List.mem_filter]

lemma fallbackImages_empty_filter (scratch produced : List String)
    (h : fallbackImages scratch produced = []) :
    (dirAfterRaster scratch produced).filter matchesPageImage = [] := by
  have hp := List.perm_insertionSort (fun a b => strLe a b = true)
    ((dirAfterRaster scratch produced).filter matchesPageImage)
  unfold fallbackImages sortStrings at h
  rw [h] at hp
  exact (hp.nil_eq).symm

lemma ocrLoop_complete (env : PdfEnv) (images : List String)
    (h : ∀ i ∈ images, env.removeOk i = true) :
    ∀ texts calls dir, ocrLoop env images texts calls dir =
      ⟨texts ++ images.map (ocr_image_to_text env.ocr), calls ++ images,
        foldRemove dir images, true⟩ := by
  induction images with
  | nil =>
    intro texts calls dir
    simp [ocrLoop, foldRemove]
  | cons i rest ih =>
    intro texts calls dir
    rw [ocrLoop, if_pos (h i (List.mem_cons_self i rest))]
    rw [ih (fun j hj => h j (List.mem_cons_of_mem i hj))]
    simp [foldRemove, List.append_assoc]

lemma pdfFallback_entered (env : PdfEnv) :
    (pdfFallback env).fallbackEntered = true := by
  unfold pdfFallback pdfOcrRun pdfLoopResult
  split
  · rfl
  · split
    · rfl
    · split
      · rfl
      · split
        · rfl
        · rfl

lemma noneIfEmpty_ne_some_empty (t : String) : noneIfEmpty t ≠ some "" := by
  by_cases h : t = ""
  · simp [noneIfEmpty, h]
  · simp [noneIfEmpty, h]

lemma process_pdf_result_shape (env : PdfEnv) :
    (process_pdf env).result = Except.error () ∨
      ∃ t, (process_pdf env).result = Except.ok (noneIfEmpty t) := by
  unfold process_pdf pdfFallback pdfOcrRun pdfLoopResult
  split
  · split
    · exact Or.inl rfl
    · split
      · exact Or.inr ⟨directText env, rfl⟩
      · split
        · exact Or.inr ⟨directText env, rfl⟩
        · split
          · exact Or.inr ⟨_, rfl⟩
          · exact Or.inr ⟨directText env, rfl⟩
  · exact Or.inr ⟨directText env, rfl⟩

lemma fallback_run (env : PdfEnv) (produced : List String)
    (hins : directText env = "" ∨ (directText env).length < 100)
    (hmk : env.makedirsOk = true)
    (htp : env.pdftoppm = Except.ok produced)
    (hne : fallbackImages env.scratchFiles produced ≠ [])
    (hrm : ∀ f ∈ fallbackImages env.scratchFiles produced,
      env.removeOk f = true) :
    process_pdf env =
      ⟨Except.ok (noneIfEmpty (clean_text (joinWith pageBreakMarker
          ((fallbackImages env.scratchFiles produced).map
            (ocr_image_to_text env.ocr))))),
        foldRemove (dirAfterRaster env.scratchFiles produced)
          (fallbackImages env.scratchFiles produced),
        true, true, fallbackImages env.scratchFiles produced,
        (foldRemove (dirAfterRaster env.scratchFiles produced)
          (fallbackImages env.scratchFiles produced)).isEmpty⟩ := by
  unfold process_pdf
  rw [if_pos hins]
  unfold pdfFallback
  rw [hmk, if_neg (by simp), htp]
  show pdfOcrRun env produced = _
  unfold pdfOcrRun
  rw [if_neg hne]
  rw [ocrLoop_complete env _ hrm [] [] (dirAfterRaster env.scratchFiles produced)]
  unfold pdfLoopResult
  simp

lemma fallback_no_images (env : PdfEnv) (produced : List String)
    (hins : directText env = "" ∨ (directText env).length < 100)
    (hmk : env.makedirsOk = true)
    (htp : env.pdftoppm = Except.ok produced)
    (hem : fallbackImages env.scratchFiles produced = []) :
    process_pdf env =
      ⟨Except.ok (noneIfEmpty (directText env)),
        dirAfterRaster env.scratchFiles produced, true, true, [], false⟩ := by
  unfold process_pdf
  rw [if_pos hins]
  unfold pdfFallback
  rw [hmk, if_neg (by simp), htp]
  show pdfOcrRun env produced = _
  unfold pdfOcrRun
  rw [if_pos hem]

lemma process_pdf_sufficient (env : PdfEnv)
    (h : ¬ (directText env = "" ∨ (directText env).length < 100)) :
    process_pdf env =
      ⟨Except.ok (noneIfEmpty (directText env)), env.scratchFiles, false,
        false, [], false⟩ := by
  unfold process_pdf
  rw [if_neg h]

example : splitextExt ("proposal.doc") = ".doc" := by decide
example : splitextExt ("/a/b/archive.tar.gz") = ".gz" := by decide
example : splitextExt ("/a/.hidden") = "" := by decide
example : splitextExt ("noext") = "" := by decide
example : clean_text ("a\n\n\n\nb  ") = "a\n\nb" := by decide
example : clean_text ("  Para1\n\n\n\nPara2   ") = "Para1\n\nPara2" := by decide
example : sortStrings (["pagestale.png", "page-1.png"]) =
    ["page-1.png", "pagestale.png"] := by decide
example : matchesPageImage ("page-1.png") = true := by decide
example : matchesPageImage ("other.txt") = false := by decide

/-- C1: for every PDF input, a normalized direct-extraction candidate of at
    least 100 characters is returned as is and the image-based OCR fallback
    is never invoked, while an empty or shorter candidate (direct-extraction
    failure included) makes process_pdf attempt the fallback. -/
theorem claim_C1_sufficiency_threshold (env : PdfEnv) :
    (100 ≤ (directText env).length →
      process_pdf env =
        ⟨Except.ok (some (directText env)), env.scratchFiles, false, false,
          [], false⟩) ∧
    ((directText env = "" ∨ (directText env).length < 100) →
      (process_pdf env).fallbackEntered = true) := by
  constructor
  · intro h
    have hne : directText env ≠ "" := by
      intro e
      rw [e] at h
      exact absurd h (by decide)
    have hcond : ¬ (directText env = "" ∨ (directText env).length < 100) := by
      rintro (h1 | h2)
      · exact hne h1
      · omega
    rw [process_pdf_sufficient env hcond]
    have hsome : noneIfEmpty (directText env) = some (directText env) := by
      unfold noneIfEmpty
      rw [if_neg hne]
    rw [hsome]
  · intro h
    unfold process_pdf
    rw [if_pos h]
    exact pdfFallback_entered env

/-- Witness for C1 at two concrete environments: a 120-character direct
    extraction is returned unchanged with no fallback, and a 2-character one
    enters the fallback. -/
theorem claim_C1_witness :
    process_pdf envLong =
      ⟨Except.ok (some (directText envLong)), [], false, false, [], false⟩ ∧
    (process_pdf envShort).fallbackEntered = true :=
  ⟨(claim_C1_sufficiency_threshold envLong).1 (by decide),
    (claim_C1_sufficiency_threshold envShort).2 (by decide)⟩

/-- C2 is refuted by the code: os.makedirs on module_logic.py line 94 stands
    before the try of line 96, so when the scratch directory cannot be
    created the exception escapes process_pdf and, through the .pdf branch of
    line 144, process_document itself. The theorem evaluates the embedding at
    that failing input. -/
theorem claim_C2_makedirs_escape :
    (process_document docEnvNoMkdir ("scan.pdf")).result = Except.error () ∧
    (process_document docEnvNoMkdir ("scan.pdf")).strategy =
      Strategy.pdfS := by
  decide

/-- C3: during a fallback run that rasterized at least one page and whose
    per-page deletes all succeed, the pages are OCR processed exactly in
    lexicographically sorted file-name order and the returned text is the
    page texts joined with the stable page-break marker, normalized last. -/
theorem claim_C3_page_order_and_marker (env : PdfEnv) (produced : List String)
    (hins : directText env = "" ∨ (directText env).length < 100)
    (hmk : env.makedirsOk = true)
    (htp : env.pdftoppm = Except.ok produced)
    (hne : fallbackImages env.scratchFiles produced ≠ [])
    (hrm : ∀ f ∈ fallbackImages env.scratchFiles produced,
      env.removeOk f = true) :
    (process_pdf env).ocrCalls = fallbackImages env.scratchFiles produced ∧
    (process_pdf env).result = Except.ok (noneIfEmpty (clean_text
      (joinWith pageBreakMarker
        ((fallbackImages env.scratchFiles produced).map
          (ocr_image_to_text env.ocr))))) := by
  rw [fallback_run env produced hins hmk htp hne hrm]
  exact ⟨rfl, rfl⟩

/-- Witness for C3: the two-page scenario of the specification returns
    exactly Page A, the page-break marker, then Page B. -/
theorem claim_C3_witness :
    (process_pdf envTwoPages).ocrCalls = ["page-1.png", "page-2.png"] ∧
    (process_pdf envTwoPages).result =
      Except.ok (some ("Page A\n\n--- Page Break ---\n\nPage B")) := by
  have h := claim_C3_page_order_and_marker envTwoPages
    (["page-1.png", "page-2.png"]) (by decide) rfl rfl (by decide)
    (fun f _ => rfl)
  constructor
  · rw [h.1]
    decide
  · rw [h.2]
    decide

/-- C4 as written is false: an exception between pages (here os.remove
    raising on the second of three page images) leaves that page image and
    every later one in the scratch directory when process_pdf returns. -/
theorem claim_C4_counterexample :
    (process_pdf envRemoveFails).fallbackEntered = true ∧
    (process_pdf envRemoveFails).dir = ["page-2.png", "page-3.png"] := by
  decide

/-- C4 as amended: after a fallback run in which rasterization succeeded and
    every per-page delete succeeded, the scratch directory holds no file
    matching page*.png when process_pdf returns; a run whose loop raises
    partway may leave such files behind. -/
theorem claim_C4_cleanup_amended (env : PdfEnv) (produced : List String)
    (hins : directText env = "" ∨ (directText env).length < 100)
    (hmk : env.makedirsOk = true)
    (htp : env.pdftoppm = Except.ok produced)
    (hnd1 : env.scratchFiles.Nodup) (hnd2 : produced.Nodup)
    (hrm : ∀ f, matchesPageImage f = true → env.removeOk f = true) :
    ∀ f ∈ (process_pdf env).dir, matchesPageImage f = false := by
  have hnd0 : (dirAfterRaster env.scratchFiles produced).Nodup :=
    nodup_dirAfterRaster _ _ hnd1 hnd2
  by_cases hne : fallbackImages env.scratchFiles produced = []
  · rw [fallback_no_images env produced hins hmk htp hne]
    intro f hf
    cases hm : matchesPageImage f with
    | false => rfl
    | true =>
      exfalso
      have hmem : f ∈ (dirAfterRaster env.scratchFiles produced).filter
          matchesPageImage :=
        List.mem_filter.mpr ⟨hf, hm⟩
      rw [fallbackImages_empty_filter _ _ hne] at hmem
      simp at hmem
  · have hrm2 : ∀ f ∈ fallbackImages env.scratchFiles produced,
        env.removeOk f = true := by
      intro f hf
      exact hrm f ((mem_fallbackImages_iff _ _ f).mp hf).2
    rw [fallback_run env produced hins hmk htp hne hrm2]
    intro f hf
    have hmem := (mem_foldRemove_iff _ _ hnd0 f).mp hf
    cases hm : matchesPageImage f with
    | false => rfl
    | true =>
      exfalso
      exact hmem.2 ((mem_fallbackImages_iff _ _ f).mpr ⟨hmem.1, hm⟩)

/-- Witness for the amended C4: in a completed run only the non-page file
    survives in the scratch directory, and it does not match page*.png. -/
theorem claim_C4_witness : matchesPageImage ("other.txt") = false :=
  claim_C4_cleanup_amended envOtherFile (["page-1.png"]) (by decide) rfl rfl
    (by decide) (by decide) (fun f _ => rfl) ("other.txt") (by decide)

/-- C5: the text normalizer _clean_text is idempotent. -/
theorem claim_C5_clean_text_idem (s : String) :
    clean_text (clean_text s) = clean_text s :=
  congrArg String.mk (cleanTextL_idem s.data)

/-- C6 as written is false: module_logic.py line 141 tests only .docx, so an
    existing .doc file takes the unsupported-type outcome and yields None
    instead of being routed to the word-processor strategy. -/
theorem claim_C6_doc_counterexample :
    (process_document docEnvPlain ("proposal.doc")).strategy =
      Strategy.unsupported ∧
    (process_document docEnvPlain ("proposal.doc")).result =
      Except.ok none := by
  decide

/-- C6 as amended: for every existing file whose lowercased extension is
    .txt, .docx, .pdf or one of the raster image extensions, process_document
    dispatches to an extraction strategy, taking neither the unsupported-type
    nor the missing-file outcome; .doc is not among the recognized
    extensions. -/
theorem claim_C6_dispatch_amended (env : DocEnv) (path : String)
    (hex : env.fileExists = true)
    (hext : splitextExt (lowerStr path) ∈ supportedExts) :
    (process_document env path).strategy ≠ Strategy.unsupported ∧
    (process_document env path).strategy ≠ Strategy.missing := by
  unfold process_document
  rw [hex, if_neg (by simp)]
  by_cases h1 : splitextExt (lowerStr path) = ".txt"
  · rw [if_pos h1]
    exact ⟨by simp, by simp⟩
  · rw [if_neg h1]
    by_cases h2 : splitextExt (lowerStr path) = ".docx"
    · rw [if_pos h2]
      exact ⟨by simp, by simp⟩
    · rw [if_neg h2]
      by_cases h3 : splitextExt (lowerStr path) = ".pdf"
      · rw [if_pos h3]
        exact ⟨by simp, by simp⟩
      · rw [if_neg h3]
        have h4 : listHas imageExts (splitextExt (lowerStr path)) = true := by
          rw [listHas_iff]
          unfold supportedExts at hext
          rcases List.mem_append.mp hext with hm | hm
          · exfalso
            simp only [List.mem_cons, List.not_mem_nil, or_false] at hm
            rcases hm with e | e | e
            · exact h1 e
            · exact h2 e
            · exact h3 e
          · exact hm
        rw [h4, if_pos rfl]
        exact ⟨by simp, by simp⟩

/-- Witness for the amended C6: an existing .txt file is dispatched. -/
theorem claim_C6_witness :
    (process_document docEnvPlain ("notes.txt")).strategy ≠
      Strategy.unsupported ∧
    (process_document docEnvPlain ("notes.txt")).strategy ≠
      Strategy.missing :=
  claim_C6_dispatch_amended docEnvPlain ("notes.txt") rfl (by decide)

/-- C7: a missing file yields the absence signal before any strategy
    dispatch, whatever the extension, and an existing file with an
    unrecognized extension yields the absence signal through the
    unsupported-type outcome; neither path raises. -/
theorem claim_C7_missing_and_unsupported (env : DocEnv) (path : String) :
    (env.fileExists = false →
      process_document env path = ⟨Except.ok none, Strategy.missing⟩) ∧
    (env.fileExists = true → splitextExt (lowerStr path) ∉ supportedExts →
      process_document env path = ⟨Except.ok none, Strategy.unsupported⟩) := by
  constructor
  · intro h
    unfold process_document
    rw [h, if_pos rfl]
  · intro hex hns
    unfold process_document
    rw [hex, if_neg (by simp)]
    have h1 : splitextExt (lowerStr path) ≠ ".txt" := by
      intro e
      exact hns (by rw [e]; decide)
    have h2 : splitextExt (lowerStr path) ≠ ".docx" := by
      intro e
      exact hns (by rw [e]; decide)
    have h3 : splitextExt (lowerStr path) ≠ ".pdf" := by
      intro e
      exact hns (by rw [e]; decide)
    have h4 : listHas imageExts (splitextExt (lowerStr path)) = false := by
      cases hh : listHas imageExts (splitextExt (lowerStr path)) with
      | false => rfl
      | true =>
        exfalso
        refine hns ?_
        unfold supportedExts
        exact List.mem_append.mpr (Or.inr ((listHas_iff _ _).mp hh))
    rw [if_neg h1, if_neg h2, if_neg h3, h4, if_neg (by simp)]

/-- Witness for C7: a missing .pdf path and an existing .xyz path both give
    the absence signal with the expected outcome. -/
theorem claim_C7_witness :
    process_document docEnvMissing ("report.pdf") =
      ⟨Except.ok none, Strategy.missing⟩ ∧
    process_document docEnvPlain ("data.xyz") =
      ⟨Except.ok none, Strategy.unsupported⟩ :=
  ⟨(claim_C7_missing_and_unsupported docEnvMissing ("report.pdf")).1 rfl,
    (claim_C7_missing_and_unsupported docEnvPlain ("data.xyz")).2 rfl
      (by decide)⟩

/-- C8: _ocr_image_to_text returns the normalized text on success and the
    empty string, not the absence signal, on failure; inside the page loop an
    OCR failure therefore never aborts the remaining pages, whose texts are
    all collected whatever the per-page OCR outcomes are. -/
theorem claim_C8_ocr_error_isolated :
    (∀ g : String → Except Unit String, ∀ img t, g img = Except.ok t →
      ocr_image_to_text g img = clean_text t) ∧
    (∀ g : String → Except Unit String, ∀ img, g img = Except.error () →
      ocr_image_to_text g img = "") ∧
    (∀ env : PdfEnv, ∀ images texts calls dir : List String,
      (∀ i ∈ images, env.removeOk i = true) →
      (ocrLoop env images texts calls dir).texts =
        texts ++ images.map (ocr_image_to_text env.ocr) ∧
      (ocrLoop env images texts calls dir).completed = true) := by
  refine ⟨?_, ?_, ?_⟩
  · intro g img t h
    unfold ocr_image_to_text
    rw [h]
  · intro g img h
    unfold ocr_image_to_text
    rw [h]
  · intro env images texts calls dir h
    rw [ocrLoop_complete env images h texts calls dir]
    exact ⟨rfl, rfl⟩

/-- Witness for C8: one failing and one succeeding page; the loop still
    collects a text for both pages and completes. -/
theorem claim_C8_witness :
    ocr_image_to_text ocrOneGood ("good.png") = clean_text ("txt") ∧
    ocr_image_to_text ocrOneGood ("bad.png") = "" ∧
    (ocrLoop envOneGood (["bad.png", "good.png"]) [] [] []).texts =
      [] ++ (["bad.png", "good.png"]).map (ocr_image_to_text ocrOneGood) ∧
    (ocrLoop envOneGood (["bad.png", "good.png"]) [] [] []).completed =
      true := by
  have h3 := claim_C8_ocr_error_isolated.2.2 envOneGood
    (["bad.png", "good.png"]) [] [] [] (fun i _ => rfl)
  exact ⟨claim_C8_ocr_error_isolated.1 ocrOneGood ("good.png") ("txt")
      (by decide),
    claim_C8_ocr_error_isolated.2.1 ocrOneGood ("bad.png") (by decide),
    h3.1, h3.2⟩

/-- C9: process_pdf never returns the empty string; every return path maps
    an empty extracted text to the absence signal None. -/
theorem claim_C9_never_empty_string (env : PdfEnv) :
    (process_pdf env).result ≠ Except.ok (some ("")) := by
  rcases process_pdf_result_shape env with h | ⟨t, h⟩
  · rw [h]
    intro he
    cases he
  · rw [h]
    intro he
    injection he with he2
    exact noneIfEmpty_ne_some_empty t he2

/-- Witness for C9 at a concrete environment whose fallback fails, leaving
    only a short direct text. -/
theorem claim_C9_witness :
    (process_pdf envShort).result ≠ Except.ok (some ("")) :=
  claim_C9_never_empty_string envShort

/-- C10: the fallback image sweep is not scoped to the current invocation: a
    stale page*.png file already in the shared scratch directory is OCR
    processed, its text joins the current document output, and the file is
    deleted. -/
theorem claim_C10_stale_files_swept (env : PdfEnv) (produced : List String)
    (st : String)
    (hins : directText env = "" ∨ (directText env).length < 100)
    (hmk : env.makedirsOk = true)
    (htp : env.pdftoppm = Except.ok produced)
    (hnd1 : env.scratchFiles.Nodup) (hnd2 : produced.Nodup)
    (hst : st ∈ env.scratchFiles) (hm : matchesPageImage st = true)
    (hrm : ∀ f, env.removeOk f = true) :
    st ∈ (process_pdf env).ocrCalls ∧
    st ∉ (process_pdf env).dir ∧
    (process_pdf env).result = Except.ok (noneIfEmpty (clean_text
      (joinWith pageBreakMarker
        ((fallbackImages env.scratchFiles produced).map
          (ocr_image_to_text env.ocr))))) := by
  have hnd0 : (dirAfterRaster env.scratchFiles produced).Nodup :=
    nodup_dirAfterRaster _ _ hnd1 hnd2
  have hstd : st ∈ dirAfterRaster env.scratchFiles produced :=
    mem_dirAfterRaster _ _ st (Or.inl hst)
  have hsti : st ∈ fallbackImages env.scratchFiles produced :=
    (mem_fallbackImages_iff _ _ st).mpr ⟨hstd, hm⟩
  have hne : fallbackImages env.scratchFiles produced ≠ [] :=
    List.ne_nil_of_mem hsti
  rw [fallback_run env produced hins hmk htp hne (fun f _ => hrm f)]
  refine ⟨hsti, ?_, rfl⟩
  intro hmem
  exact ((mem_foldRemove_iff _ _ hnd0 st).mp hmem).2 hsti

/-- Witness for C10: a stale pagestale.png left by an earlier run is swept
    into the current output (after the fresh page, by sort order) and
    deleted. -/
theorem claim_C10_witness :
    ("pagestale.png") ∈ (process_pdf envStale).ocrCalls ∧
    ("pagestale.png") ∉ (process_pdf envStale).dir ∧
    (process_pdf envStale).result =
      Except.ok (some ("NEW\n\n--- Page Break ---\n\nOLD")) := by
  have h := claim_C10_stale_files_swept envStale (["page-1.png"])
    ("pagestale.png") (by decide) rfl rfl (by decide) (by decide) (by decide)
    (by decide) (fun f => rfl)
  refine ⟨h.1, h.2.1, ?_⟩
  rw [h.2.2]
  decide

end AI4RFP
